import Mathlib

/-!
Verification of the jen_rx event decoder and state store (src/lib.rs).

The Rust source decodes OSC messages addressed to the fixed address
"/jen" into a list of typed events, and folds such events into a
mutable state keyed by two small closed enumerations.

Embedding conventions:
* OSC argument values (a heterogeneous list of 32-bit ints and 32-bit
  floats) are modelled by `OscType` with `Int` carried as `Int` and
  `Float` carried as `Rat`; the decoder never performs arithmetic on
  either, it only pattern-matches on the constructor and on integer
  equality, so the carrier types are faithful.
* The Rust iterator state of `osc_msg_to_events` is the pair of the
  current lookahead argument `arg` and the not-yet-pulled remainder of
  the argument vector.  In every reachable state `arg = None` implies
  the remainder is empty, so the pair is represented by a single list
  whose head is the lookahead.
* A Rust panic (the `expect` calls on unknown instrument or measure
  codes) aborts the process and returns nothing; it is modelled by
  `Except.error` carrying the panic message, which likewise discards
  every event collected so far.
* The `eprintln` diagnostic on an unexpected argument at block start
  is the only fault the source reports; it is modelled by the `Bool`
  component of the decoder result (`true` exactly when the source
  prints "unexpected arg" and breaks).
* `Instant::now()` is modelled by an explicit integer-valued clock
  parameter `now`; `Instant` supports only comparison and
  `duration_since`, so an integer timeline is faithful.  The single
  `Instant::now()` captured at the top of `update_by_events` becomes
  the single `now` argument shared by the whole batch.
-/

namespace JenRx

/-- OSC argument values as used by the source: 32-bit ints and floats. -/
inductive OscType : Type
  | Int (i : Int)
  | Float (f : Rat)
deriving DecidableEq, Repr

/-- Mode sentinel for note-on blocks (`const NOTE_ON: i32 = 100`). -/
def NOTE_ON : Int := 100

/-- Mode sentinel for playhead-bang blocks (`const PLAYHEAD_BANG: i32 = 101`). -/
def PLAYHEAD_BANG : Int := 101

/-- Mode sentinel for playhead-position blocks (`const PLAYHEAD_POSITION: i32 = 102`). -/
def PLAYHEAD_POSITION : Int := 102

/-- Test whether an integer argument is one of the three mode tags
(`fn int_is_mode` in `osc_msg_to_events`). -/
def int_is_mode (i : Int) : Bool :=
  i == NOTE_ON || i == PLAYHEAD_BANG || i == PLAYHEAD_POSITION

/-- The eight instruments, in declared order (`enum Instrument`). -/
inductive Instrument : Type
  | Snare | Kick | Ride | Ghost | Bass | Melodic | Chordal | Atmos
deriving DecidableEq, Repr

/-- The seven rhythmic measures, coarsest to finest (`enum Measure`). -/
inductive Measure : Type
  | Phrase | Segment | Bar | Minim | Beat | Quaver | SemiQuaver
deriving DecidableEq, Repr

/-- Number of `Instrument` variants (`Instrument::TOTAL_VARIANTS`). -/
def Instrument.TOTAL_VARIANTS : Nat := 8

/-- Number of `Measure` variants (`Measure::TOTAL_VARIANTS`). -/
def Measure.TOTAL_VARIANTS : Nat := 7

/-- Decode an integer instrument code (`Instrument::from_i32`). -/
def Instrument.from_i32 (i : Int) : Option Instrument :=
  if i = 0 then some .Snare
  else if i = 1 then some .Kick
  else if i = 2 then some .Ride
  else if i = 3 then some .Ghost
  else if i = 4 then some .Bass
  else if i = 5 then some .Melodic
  else if i = 6 then some .Chordal
  else if i = 7 then some .Atmos
  else none

/-- Decode an integer measure code (`Measure::from_i32`). -/
def Measure.from_i32 (i : Int) : Option Measure :=
  if i = 0 then some .Phrase
  else if i = 1 then some .Segment
  else if i = 2 then some .Bar
  else if i = 3 then some .Minim
  else if i = 4 then some .Beat
  else if i = 5 then some .Quaver
  else if i = 6 then some .SemiQuaver
  else none

/-- Events emitted by the decoder (`enum Event`). -/
inductive Event : Type
  | NoteOn (inst : Instrument)
  | PlayheadBang (meas : Measure)
  | PlayheadPosition (meas : Measure) (pos : Rat)
deriving DecidableEq, Repr

/-- An OSC message as consumed by `osc_msg_to_events`: an address and an
optional argument vector. -/
structure Message : Type where
  addr : String
  args : Option (List OscType)
deriving DecidableEq, Repr

/-- Inner loop of the `NOTE_ON` branch of `osc_msg_to_events`: pull
arguments while each is a non-mode integer, decoding each such integer
as an instrument code (panicking, i.e. returning `Except.error`, on an
unknown code).  Returns the events of the block together with the rest
of the stream; the argument that broke the loop (a mode tag, a float,
or nothing at end of stream) is left at the head of the returned rest,
modelling `arg = a; continue` in the source. -/
def noteOnLoop : List OscType → Except String (List Event × List OscType)
  | [] => .ok ([], [])
  | OscType.Int i :: rest =>
      if int_is_mode i then .ok ([], OscType.Int i :: rest)
      else
        match Instrument.from_i32 i with
        | some inst =>
            match noteOnLoop rest with
            | .ok (evs, rest') => .ok (Event.NoteOn inst :: evs, rest')
            | .error e => .error e
        | none => .error "unexpected instrument"
  | a :: rest => .ok ([], a :: rest)

/-- Inner loop of the `PLAYHEAD_BANG` branch of `osc_msg_to_events`:
identical shape to `noteOnLoop` but decoding measure codes. -/
def bangLoop : List OscType → Except String (List Event × List OscType)
  | [] => .ok ([], [])
  | OscType.Int i :: rest =>
      if int_is_mode i then .ok ([], OscType.Int i :: rest)
      else
        match Measure.from_i32 i with
        | some meas =>
            match bangLoop rest with
            | .ok (evs, rest') => .ok (Event.PlayheadBang meas :: evs, rest')
            | .error e => .error e
        | none => .error "unexpected measure"
  | a :: rest => .ok ([], a :: rest)

/-- Body of the `PLAYHEAD_POSITION` branch of `osc_msg_to_events`:
`for i in 0..Measure::TOTAL_VARIANTS` pulls one float per index and
emits a `PlayheadPosition` event for the measure with that code.  The
index sequence is passed in as a list (`List.range 7` at the call
site).  A non-float argument (or end of stream) stops the loop early
with that argument left at the head of the returned rest, modelling
`arg = a; continue` in the source; when all indices are consumed the
returned rest is the untouched remainder, from which the outer loop
pulls its next lookahead. -/
def posLoop : List Nat → List OscType → Except String (List Event × List OscType)
  | [], rest => .ok ([], rest)
  | i :: idxs, rest =>
      match Measure.from_i32 (i : Int) with
      | none => .error "unexpected measure"
      | some meas =>
          match rest with
          | OscType.Float p :: rest' =>
              match posLoop idxs rest' with
              | .ok (evs, rest'') => .ok (Event.PlayheadPosition meas p :: evs, rest'')
              | .error e => .error e
          | _ => .ok ([], rest)

theorem noteOnLoop_length_le :
    ∀ (l : List OscType) (evs : List Event) (rest' : List OscType),
      noteOnLoop l = .ok (evs, rest') → rest'.length ≤ l.length := by
  intro l
  induction l with
  | nil =>
      intro evs rest' h
      simp [noteOnLoop] at h
      simp [h.2]
  | cons a rest ih =>
      intro evs rest' h
      match a with
      | OscType.Int i =>
          by_cases hm : int_is_mode i
          · simp [noteOnLoop, hm] at h
            simp [← h.2]
          · simp [noteOnLoop, hm] at h
            match hf : Instrument.from_i32 i with
            | some inst =>
                rw [hf] at h
                match hr : noteOnLoop rest with
                | .ok (evs0, r0) =>
                    rw [hr] at h
                    simp at h
                    have := ih evs0 r0 hr
                    rw [← h.2]
                    exact Nat.le_succ_of_le this
                | .error e => rw [hr] at h; simp at h
            | none => rw [hf] at h; simp at h
      | OscType.Float f =>
          simp [noteOnLoop] at h
          simp [← h.2]

theorem bangLoop_length_le :
    ∀ (l : List OscType) (evs : List Event) (rest' : List OscType),
      bangLoop l = .ok (evs, rest') → rest'.length ≤ l.length := by
  intro l
  induction l with
  | nil =>
      intro evs rest' h
      simp [bangLoop] at h
      simp [h.2]
  | cons a rest ih =>
      intro evs rest' h
      match a with
      | OscType.Int i =>
          by_cases hm : int_is_mode i
          · simp [bangLoop, hm] at h
            simp [← h.2]
          · simp [bangLoop, hm] at h
            match hf : Measure.from_i32 i with
            | some meas =>
                rw [hf] at h
                match hr : bangLoop rest with
                | .ok (evs0, r0) =>
                    rw [hr] at h
                    simp at h
                    have := ih evs0 r0 hr
                    rw [← h.2]
                    exact Nat.le_succ_of_le this
                | .error e => rw [hr] at h; simp at h
            | none => rw [hf] at h; simp at h
      | OscType.Float f =>
          simp [bangLoop] at h
          simp [← h.2]

theorem posLoop_length_le :
    ∀ (idxs : List Nat) (l : List OscType) (evs : List Event) (rest' : List OscType),
      posLoop idxs l = .ok (evs, rest') → rest'.length ≤ l.length := by
  intro idxs
  induction idxs with
  | nil =>
      intro l evs rest' h
      simp [posLoop] at h
      simp [h.2]
  | cons i idxs ih =>
      intro l evs rest' h
      match hf : Measure.from_i32 (i : Int) with
      | none => simp [posLoop, hf] at h
      | some meas =>
          match l with
          | [] =>
              simp [posLoop, hf] at h
              simp [h.2]
          | OscType.Float p :: rest0 =>
              simp [posLoop, hf] at h
              match hr : posLoop idxs rest0 with
              | .ok (evs0, r0) =>
                  rw [hr] at h
                  simp at h
                  have := ih rest0 evs0 r0 hr
                  rw [← h.2]
                  exact Nat.le_succ_of_le this
              | .error e => rw [hr] at h; simp at h
          | OscType.Int j :: rest0 =>
              simp [posLoop, hf] at h
              simp [← h.2]

/-- Outer mode-dispatch loop of `osc_msg_to_events` (the loop labelled
`'modes` in the source), with an explicit structural fuel.  The head
of the list is the current lookahead argument `arg`; an empty list is
`arg = None`, which breaks.  Every iteration of the source loop
consumes at least one argument, so fuel equal to the length of the
argument list always suffices and the out-of-fuel branch is
unreachable from `decodeLoop` (`decodeLoopF_irrel` below makes the
fuel irrelevance precise).  The `Bool` result records whether the
source printed its "unexpected arg" diagnostic before breaking. -/
def decodeLoopF : Nat → List OscType → Except String (List Event × Bool)
  | _, [] => .ok ([], false)
  | 0, _ :: _ => .ok ([], false)
  | fuel + 1, OscType.Int i :: rest =>
      if i = NOTE_ON then
        match noteOnLoop rest with
        | .ok (evs, rest') =>
            match decodeLoopF fuel rest' with
            | .ok (evs', fault) => .ok (evs ++ evs', fault)
            | .error e => .error e
        | .error e => .error e
      else if i = PLAYHEAD_BANG then
        match bangLoop rest with
        | .ok (evs, rest') =>
            match decodeLoopF fuel rest' with
            | .ok (evs', fault) => .ok (evs ++ evs', fault)
            | .error e => .error e
        | .error e => .error e
      else if i = PLAYHEAD_POSITION then
        match posLoop (List.range Measure.TOTAL_VARIANTS) rest with
        | .ok (evs, rest') =>
            match decodeLoopF fuel rest' with
            | .ok (evs', fault) => .ok (evs ++ evs', fault)
            | .error e => .error e
        | .error e => .error e
      else .ok ([], true)
  | _ + 1, OscType.Float _ :: _ => .ok ([], true)

/-- Run the mode-dispatch loop with enough fuel for the whole
argument list. -/
def decodeLoop (args : List OscType) : Except String (List Event × Bool) :=
  decodeLoopF args.length args

theorem decodeLoopF_irrel :
    ∀ (fuel₁ fuel₂ : Nat) (args : List OscType),
      args.length ≤ fuel₁ → args.length ≤ fuel₂ →
      decodeLoopF fuel₁ args = decodeLoopF fuel₂ args := by
  intro fuel₁
  induction fuel₁ with
  | zero =>
      intro fuel₂ args h₁ h₂
      match args with
      | [] => cases fuel₂ <;> rfl
      | a :: rest => simp at h₁
  | succ f₁ ih =>
      intro fuel₂ args h₁ h₂
      match args with
      | [] => cases fuel₂ <;> rfl
      | a :: rest =>
          match fuel₂ with
          | 0 => simp at h₂
          | f₂ + 1 =>
              simp only [List.length_cons, Nat.succ_le_succ_iff] at h₁ h₂
              match a with
              | OscType.Float f => rfl
              | OscType.Int i =>
                  simp only [decodeLoopF]
                  split_ifs with hN hB hP
                  · cases hr : noteOnLoop rest with
                    | error e => rfl
                    | ok p =>
                        obtain ⟨evs, rest'⟩ := p
                        have hle := noteOnLoop_length_le rest evs rest' hr
                        simp only [ih f₂ rest' (hle.trans h₁) (hle.trans h₂)]
                  · cases hr : bangLoop rest with
                    | error e => rfl
                    | ok p =>
                        obtain ⟨evs, rest'⟩ := p
                        have hle := bangLoop_length_le rest evs rest' hr
                        simp only [ih f₂ rest' (hle.trans h₁) (hle.trans h₂)]
                  · cases hr : posLoop (List.range Measure.TOTAL_VARIANTS) rest with
                    | error e => rfl
                    | ok p =>
                        obtain ⟨evs, rest'⟩ := p
                        have hle := posLoop_length_le _ rest evs rest' hr
                        simp only [ih f₂ rest' (hle.trans h₁) (hle.trans h₂)]
                  · rfl

/-- Convert an OSC message to a list of events (`osc_msg_to_events`).
Returns the decoded events together with the fault flag of
`decodeLoop`; a panic in the source is `Except.error`. -/
def osc_msg_to_events (msg : Message) : Except String (List Event × Bool) :=
  if msg.addr ≠ "/jen" then .ok ([], false)
  else
    match msg.args with
    | none => .ok ([], false)
    | some args => decodeLoop args

theorem decodeLoop_nil : decodeLoop [] = .ok ([], false) := rfl

theorem decodeLoop_float (f : Rat) (rest : List OscType) :
    decodeLoop (OscType.Float f :: rest) = .ok ([], true) := rfl

theorem decodeLoop_bad_int (i : Int) (rest : List OscType) (h : int_is_mode i = false) :
    decodeLoop (OscType.Int i :: rest) = .ok ([], true) := by
  simp only [int_is_mode, Bool.or_eq_false_iff, beq_eq_false_iff_ne, ne_eq] at h
  obtain ⟨⟨h₁, h₂⟩, h₃⟩ := h
  simp [decodeLoop, decodeLoopF, h₁, h₂, h₃]

theorem decodeLoop_noteOn (rest : List OscType) :
    decodeLoop (OscType.Int NOTE_ON :: rest) =
      (match noteOnLoop rest with
       | .ok (evs, rest') =>
           (match decodeLoop rest' with
            | .ok (evs', fault) => .ok (evs ++ evs', fault)
            | .error e => .error e)
       | .error e => .error e) := by
  show decodeLoopF (rest.length + 1) (OscType.Int NOTE_ON :: rest) = _
  simp only [decodeLoopF, reduceIte]
  cases hr : noteOnLoop rest with
  | error e => rfl
  | ok p =>
      obtain ⟨evs, rest'⟩ := p
      have hle := noteOnLoop_length_le rest evs rest' hr
      simp only [decodeLoop]
      simp only [decodeLoopF_irrel rest.length rest'.length rest' hle le_rfl]

theorem decodeLoop_bang (rest : List OscType) :
    decodeLoop (OscType.Int PLAYHEAD_BANG :: rest) =
      (match bangLoop rest with
       | .ok (evs, rest') =>
           (match decodeLoop rest' with
            | .ok (evs', fault) => .ok (evs ++ evs', fault)
            | .error e => .error e)
       | .error e => .error e) := by
  show decodeLoopF (rest.length + 1) (OscType.Int PLAYHEAD_BANG :: rest) = _
  have h1 : ((PLAYHEAD_BANG : Int) = NOTE_ON) = False := by norm_num [PLAYHEAD_BANG, NOTE_ON]
  have h2 : ((PLAYHEAD_BANG : Int) = PLAYHEAD_BANG) = True := by norm_num
  simp only [decodeLoopF, h1, h2, if_true, if_false]
  cases hr : bangLoop rest with
  | error e => rfl
  | ok p =>
      obtain ⟨evs, rest'⟩ := p
      have hle := bangLoop_length_le rest evs rest' hr
      simp only [decodeLoop]
      simp only [decodeLoopF_irrel rest.length rest'.length rest' hle le_rfl]

theorem decodeLoop_pos (rest : List OscType) :
    decodeLoop (OscType.Int PLAYHEAD_POSITION :: rest) =
      (match posLoop (List.range Measure.TOTAL_VARIANTS) rest with
       | .ok (evs, rest') =>
           (match decodeLoop rest' with
            | .ok (evs', fault) => .ok (evs ++ evs', fault)
            | .error e => .error e)
       | .error e => .error e) := by
  show decodeLoopF (rest.length + 1) (OscType.Int PLAYHEAD_POSITION :: rest) = _
  have h1 : ((PLAYHEAD_POSITION : Int) = NOTE_ON) = False := by
    norm_num [PLAYHEAD_POSITION, NOTE_ON]
  have h2 : ((PLAYHEAD_POSITION : Int) = PLAYHEAD_BANG) = False := by
    norm_num [PLAYHEAD_POSITION, PLAYHEAD_BANG]
  have h3 : ((PLAYHEAD_POSITION : Int) = PLAYHEAD_POSITION) = True := by norm_num
  simp only [decodeLoopF, h1, h2, h3, if_true, if_false]
  cases hr : posLoop (List.range Measure.TOTAL_VARIANTS) rest with
  | error e => rfl
  | ok p =>
      obtain ⟨evs, rest'⟩ := p
      have hle := posLoop_length_le _ rest evs rest' hr
      simp only [decodeLoop]
      simp only [decodeLoopF_irrel rest.length rest'.length rest' hle le_rfl]

/-- The most recently received state of Jen (`struct State`).  Each of
the three `HashMap` fields is modelled by its lookup function; an
absent key is `none`.  `Instant` timestamps are integer clock
readings. -/
structure State : Type where
  note_ons : Instrument → Option Int
  playhead_bangs : Measure → Option Int
  playhead_positions : Measure → Option Rat

/-- Construct an empty state (`State::new`, via `Default`). -/
def State.new : State :=
  { note_ons := fun _ => none
    playhead_bangs := fun _ => none
    playhead_positions := fun _ => none }

/-- Effect of one iteration of the `for event in events` loop of
`State::update_by_events`: a single `HashMap::insert` on the mapping
selected by the event's constructor. -/
def applyEvent (s : State) (now : Int) (e : Event) : State :=
  match e with
  | .NoteOn inst =>
      { s with note_ons := fun k => if k = inst then some now else s.note_ons k }
  | .PlayheadBang meas =>
      { s with playhead_bangs := fun k => if k = meas then some now else s.playhead_bangs k }
  | .PlayheadPosition meas pos =>
      { s with playhead_positions := fun k => if k = meas then some pos else s.playhead_positions k }

/-- Update the state via the given events (`State::update_by_events`).
The source captures `Instant::now()` once before the loop; that single
reading is the `now` argument, shared by every event of the batch. -/
def State.update_by_events (s : State) (now : Int) (events : List Event) : State :=
  events.foldl (fun st e => applyEvent st now e) s

/-- Seconds since the last note-on for an instrument
(`State::secs_since_note_on`).  The source takes `now` from
`Instant::now()` at query time; here it is the explicit query-time
argument.  The stored reading is returned as `none` when it is
strictly in the future of `now`, otherwise the elapsed duration
`now - then` is returned. -/
def State.secs_since_note_on (s : State) (now : Int) (inst : Instrument) : Option Int :=
  (s.note_ons inst).bind fun t => if t > now then none else some (now - t)

/-- Seconds since the last playhead bang for a measure
(`State::secs_since_measure`); same contract as
`State.secs_since_note_on` over the `playhead_bangs` mapping. -/
def State.secs_since_measure (s : State) (now : Int) (meas : Measure) : Option Int :=
  (s.playhead_bangs meas).bind fun t => if t > now then none else some (now - t)

/-- The playhead position over the given measure
(`State::playhead_position`). -/
def State.playhead_position (s : State) (meas : Measure) : Option Rat :=
  s.playhead_positions meas

theorem osc_msg_to_events_jen (args : List OscType) :
    osc_msg_to_events ⟨"/jen", some args⟩ = decodeLoop args := rfl

theorem update_by_events_cons (s : State) (now : Int) (e : Event) (es : List Event) :
    State.update_by_events s now (e :: es) =
      State.update_by_events (applyEvent s now e) now es := rfl

theorem note_ons_after_update :
    ∀ (es : List Event) (s : State) (now : Int) (inst : Instrument),
      (State.update_by_events s now es).note_ons inst = s.note_ons inst ∨
      (State.update_by_events s now es).note_ons inst = some now := by
  intro es
  induction es with
  | nil => intro s now inst; left; rfl
  | cons e es ih =>
      intro s now inst
      have he : (applyEvent s now e).note_ons inst = s.note_ons inst ∨
          (applyEvent s now e).note_ons inst = some now := by
        cases e with
        | NoteOn inst' =>
            by_cases hk : inst = inst'
            · right; simp [applyEvent, hk]
            · left; simp [applyEvent, hk]
        | PlayheadBang m => left; rfl
        | PlayheadPosition m v => left; rfl
      rw [update_by_events_cons]
      cases ih (applyEvent s now e) now inst with
      | inl h1 =>
          cases he with
          | inl he1 => left; rw [h1, he1]
          | inr he2 => right; rw [h1, he2]
      | inr h2 => right; exact h2

theorem bangs_after_update :
    ∀ (es : List Event) (s : State) (now : Int) (meas : Measure),
      (State.update_by_events s now es).playhead_bangs meas = s.playhead_bangs meas ∨
      (State.update_by_events s now es).playhead_bangs meas = some now := by
  intro es
  induction es with
  | nil => intro s now meas; left; rfl
  | cons e es ih =>
      intro s now meas
      have he : (applyEvent s now e).playhead_bangs meas = s.playhead_bangs meas ∨
          (applyEvent s now e).playhead_bangs meas = some now := by
        cases e with
        | NoteOn inst' => left; rfl
        | PlayheadBang m =>
            by_cases hk : meas = m
            · right; simp [applyEvent, hk]
            · left; simp [applyEvent, hk]
        | PlayheadPosition m v => left; rfl
      rw [update_by_events_cons]
      cases ih (applyEvent s now e) now meas with
      | inl h1 =>
          cases he with
          | inl he1 => left; rw [h1, he1]
          | inr he2 => right; rw [h1, he2]
      | inr h2 => right; exact h2

theorem positions_after_update :
    ∀ (es : List Event) (s : State) (now : Int) (meas : Measure),
      (State.update_by_events s now es).playhead_positions meas = s.playhead_positions meas ∨
      ∃ v, (State.update_by_events s now es).playhead_positions meas = some v ∧
        Event.PlayheadPosition meas v ∈ es := by
  intro es
  induction es with
  | nil => intro s now meas; left; rfl
  | cons e es ih =>
      intro s now meas
      rw [update_by_events_cons]
      cases ih (applyEvent s now e) now meas with
      | inl h1 =>
          have he : (applyEvent s now e).playhead_positions meas = s.playhead_positions meas ∨
              ∃ v, (applyEvent s now e).playhead_positions meas = some v ∧
                Event.PlayheadPosition meas v = e := by
            cases e with
            | NoteOn inst' => left; rfl
            | PlayheadBang m => left; rfl
            | PlayheadPosition m v =>
                by_cases hk : meas = m
                · right; exact ⟨v, by simp [applyEvent, hk], by rw [hk]⟩
                · left; simp [applyEvent, hk]
          cases he with
          | inl he1 => left; rw [h1, he1]
          | inr he2 =>
              obtain ⟨v, hv, hev⟩ := he2
              right
              exact ⟨v, by rw [h1, hv], by rw [← hev]; exact List.mem_cons_self _ _⟩
      | inr h2 =>
          obtain ⟨v, hv, hmem⟩ := h2
          right
          exact ⟨v, hv, List.mem_cons_of_mem _ hmem⟩

/-- C1: the claim states that a NOTE_ON payload integer outside 0-7
(such as 99) yields a recoverable `UnknownInstrumentCode` fault with
no process abort and with the earlier events still returned.  The
source instead calls `Instrument::from_i32(i).expect(..)`, which
panics: decoding the message aborts with the panic message
"unexpected instrument" and the `NoteOn(Ride)` event already decoded
from the same message is discarded rather than returned. -/
theorem C1_unknown_instrument_code_panics :
    osc_msg_to_events ⟨"/jen", some [OscType.Int 100, OscType.Int 2, OscType.Int 99]⟩ =
      .error "unexpected instrument" := rfl

/-- C3: a "/jen" message with args `[102, f1, f2, 100, 2]` decodes to
exactly `PlayheadPosition(Phrase, f1)`, `PlayheadPosition(Segment, f2)`,
`NoteOn(Ride)` in that order with no fault: the two floats of the
interrupted PLAYHEAD_POSITION block are kept and the interrupting mode
tag `100` becomes the next block's header without being consumed
twice. -/
theorem C3_interrupted_position_block (f1 f2 : Rat) :
    osc_msg_to_events ⟨"/jen", some [OscType.Int 102, OscType.Float f1, OscType.Float f2,
        OscType.Int 100, OscType.Int 2]⟩ =
      .ok ([Event.PlayheadPosition .Phrase f1, Event.PlayheadPosition .Segment f2,
            Event.NoteOn .Ride], false) := by
  rw [osc_msg_to_events_jen, show (102 : Int) = PLAYHEAD_POSITION from rfl, decodeLoop_pos]
  norm_num [posLoop, Measure.from_i32, Measure.TOTAL_VARIANTS, List.range_succ]
  rw [show (100 : Int) = NOTE_ON from rfl, decodeLoop_noteOn]
  norm_num [noteOnLoop, int_is_mode, Instrument.from_i32, decodeLoop_nil,
    NOTE_ON, PLAYHEAD_BANG, PLAYHEAD_POSITION]

/-- C4: a "/jen" message whose args are the mode tag 102 followed by
exactly 7 floats decodes to exactly 7 `PlayheadPosition` events, the
i-th float paired with the measure of code i, in the fixed order
Phrase, Segment, Bar, Minim, Beat, Quaver, SemiQuaver. -/
theorem C4_full_position_block (f0 f1 f2 f3 f4 f5 f6 : Rat) :
    osc_msg_to_events ⟨"/jen", some [OscType.Int 102, OscType.Float f0, OscType.Float f1,
        OscType.Float f2, OscType.Float f3, OscType.Float f4, OscType.Float f5,
        OscType.Float f6]⟩ =
      .ok ([Event.PlayheadPosition .Phrase f0, Event.PlayheadPosition .Segment f1,
            Event.PlayheadPosition .Bar f2, Event.PlayheadPosition .Minim f3,
            Event.PlayheadPosition .Beat f4, Event.PlayheadPosition .Quaver f5,
            Event.PlayheadPosition .SemiQuaver f6], false) := by
  rw [osc_msg_to_events_jen, show (102 : Int) = PLAYHEAD_POSITION from rfl, decodeLoop_pos]
  norm_num [posLoop, Measure.from_i32, Measure.TOTAL_VARIANTS, List.range_succ, decodeLoop_nil]

/-- C7: a message whose address is not exactly "/jen" decodes to an
empty event sequence with no fault, and so does a message whose
argument list is absent (`None`) or empty, for any address. -/
theorem C7_ignored_traffic :
    (∀ msg : Message, msg.addr ≠ "/jen" → osc_msg_to_events msg = .ok ([], false))
    ∧ (∀ addr : String, osc_msg_to_events ⟨addr, none⟩ = .ok ([], false))
    ∧ (∀ addr : String, osc_msg_to_events ⟨addr, some []⟩ = .ok ([], false)) := by
  refine ⟨?_, ?_, ?_⟩
  · intro msg h
    simp [osc_msg_to_events, h]
  · intro addr
    by_cases h : addr = "/jen"
    · subst h; rfl
    · simp [osc_msg_to_events, h]
  · intro addr
    by_cases h : addr = "/jen"
    · subst h; rfl
    · simp [osc_msg_to_events, h]

/-- C7 witness: the non-"/jen" case of `C7_ignored_traffic` applied to
a concrete message that would decode to events under address "/jen". -/
theorem C7_ignored_traffic_witness :
    osc_msg_to_events ⟨"/ping", some [OscType.Int 100, OscType.Int 3]⟩ = .ok ([], false) :=
  C7_ignored_traffic.1 ⟨"/ping", some [OscType.Int 100, OscType.Int 3]⟩ (by decide)

theorem noteOnLoop_valid_payload :
    ∀ (codes : List Int),
      (∀ c ∈ codes, int_is_mode c = false ∧ (Instrument.from_i32 c).isSome = true) →
      ∀ (f : Rat) (rest : List OscType),
        noteOnLoop (codes.map OscType.Int ++ OscType.Float f :: rest) =
          .ok (codes.filterMap (fun c => (Instrument.from_i32 c).map Event.NoteOn),
            OscType.Float f :: rest) := by
  intro codes
  induction codes with
  | nil => intro h f rest; rfl
  | cons c cs ih =>
      intro h f rest
      obtain ⟨hm, hs⟩ := h c (List.mem_cons_self _ _)
      obtain ⟨inst, hinst⟩ := Option.isSome_iff_exists.mp hs
      simp only [List.map_cons, List.cons_append, List.filterMap_cons, hinst, Option.map_some]
      simp only [noteOnLoop, hm, Bool.false_eq_true, if_false, hinst,
        ih (fun c hc => h c (List.mem_cons_of_mem _ hc)) f rest]
      simp

/-- C2: a non-mode-tag argument at block-boundary position stops the
scan and is reported as a fault ("unexpected arg" on stderr, the
`true` flag here), with the events already produced returned rather
than discarded.  First conjunct: at any boundary, an argument that is
a float or a non-mode integer yields the fault flag and ends decoding.
Second conjunct: a NOTE_ON block of valid payload codes followed by
such a boundary fault still returns all events of the block, with the
fault flag set. -/
theorem C2_boundary_fault :
    (∀ (a : OscType) (rest : List OscType),
       (∀ i, a = OscType.Int i → int_is_mode i = false) →
       decodeLoop (a :: rest) = .ok ([], true))
    ∧ (∀ (codes : List Int),
         (∀ c ∈ codes, int_is_mode c = false ∧ (Instrument.from_i32 c).isSome = true) →
         ∀ (f : Rat) (rest : List OscType),
           decodeLoop (OscType.Int NOTE_ON :: (codes.map OscType.Int ++ OscType.Float f :: rest)) =
             .ok (codes.filterMap (fun c => (Instrument.from_i32 c).map Event.NoteOn), true)) := by
  constructor
  · intro a rest h
    cases a with
    | Float f => exact decodeLoop_float f rest
    | Int i => exact decodeLoop_bad_int i rest (h i rfl)
  · intro codes h f rest
    rw [decodeLoop_noteOn, noteOnLoop_valid_payload codes h f rest]
    simp [decodeLoop_float]

/-- C2 witness: a non-mode integer (5) at the head position faults,
and a NOTE_ON block `[2, 3]` interrupted by a float keeps both decoded
events while reporting the fault. -/
theorem C2_boundary_fault_witness :
    decodeLoop [OscType.Int 5, OscType.Float 1] = .ok ([], true)
    ∧ decodeLoop (OscType.Int NOTE_ON ::
        (([2, 3] : List Int).map OscType.Int ++ OscType.Float 1 :: [OscType.Int 101])) =
      .ok (([2, 3] : List Int).filterMap (fun c => (Instrument.from_i32 c).map Event.NoteOn),
        true) :=
  ⟨C2_boundary_fault.1 (OscType.Int 5) [OscType.Float 1] (by intro i h; cases h; decide),
   C2_boundary_fault.2 [2, 3] (by decide) 1 [OscType.Int 101]⟩

/-- C8: a mode block with zero payload items before the next boundary
is valid.  First conjunct: a mode tag immediately followed by another
mode tag contributes no events and the scan continues with the next
block, the second tag becoming its header.  Second conjunct: a mode
tag at the very end of the stream contributes no events and decoding
terminates with no fault. -/
theorem C8_empty_block_valid :
    (∀ (m mn : Int) (rest : List OscType),
       int_is_mode m = true → int_is_mode mn = true →
       decodeLoop (OscType.Int m :: OscType.Int mn :: rest) =
         decodeLoop (OscType.Int mn :: rest))
    ∧ (∀ (m : Int), int_is_mode m = true → decodeLoop [OscType.Int m] = .ok ([], false)) := by
  have hcases : ∀ (m : Int), int_is_mode m = true →
      m = NOTE_ON ∨ m = PLAYHEAD_BANG ∨ m = PLAYHEAD_POSITION := by
    intro m h
    simpa [int_is_mode, Bool.or_eq_true, beq_iff_eq, or_assoc] using h
  constructor
  · intro m mn rest hm hmn
    rcases hcases m hm with h1 | h2 | h3
    · subst h1
      rw [decodeLoop_noteOn]
      rw [show noteOnLoop (OscType.Int mn :: rest) = .ok ([], OscType.Int mn :: rest) by
        simp [noteOnLoop, hmn]]
      cases hd : decodeLoop (OscType.Int mn :: rest) with
      | ok p => obtain ⟨evs, fl⟩ := p; simp [hd]
      | error e => simp [hd]
    · subst h2
      rw [decodeLoop_bang]
      rw [show bangLoop (OscType.Int mn :: rest) = .ok ([], OscType.Int mn :: rest) by
        simp [bangLoop, hmn]]
      cases hd : decodeLoop (OscType.Int mn :: rest) with
      | ok p => obtain ⟨evs, fl⟩ := p; simp [hd]
      | error e => simp [hd]
    · subst h3
      rw [decodeLoop_pos]
      rw [show List.range Measure.TOTAL_VARIANTS = [0, 1, 2, 3, 4, 5, 6] from rfl]
      rw [show posLoop [0, 1, 2, 3, 4, 5, 6] (OscType.Int mn :: rest) =
          .ok ([], OscType.Int mn :: rest) by simp [posLoop, Measure.from_i32]]
      cases hd : decodeLoop (OscType.Int mn :: rest) with
      | ok p => obtain ⟨evs, fl⟩ := p; simp [hd]
      | error e => simp [hd]
  · intro m hm
    rcases hcases m hm with h1 | h2 | h3
    · subst h1
      rw [decodeLoop_noteOn]
      simp [noteOnLoop, decodeLoop_nil]
    · subst h2
      rw [decodeLoop_bang]
      simp [bangLoop, decodeLoop_nil]
    · subst h3
      rw [decodeLoop_pos]
      rw [show List.range Measure.TOTAL_VARIANTS = [0, 1, 2, 3, 4, 5, 6] from rfl]
      simp [posLoop, Measure.from_i32, decodeLoop_nil]

/-- C8 witness: an empty NOTE_ON block followed by a PLAYHEAD_BANG
block decodes exactly as the PLAYHEAD_BANG block alone, and a trailing
bare PLAYHEAD_POSITION tag decodes to no events and no fault. -/
theorem C8_empty_block_valid_witness :
    (decodeLoop [OscType.Int 100, OscType.Int 101, OscType.Int 3] =
      decodeLoop [OscType.Int 101, OscType.Int 3])
    ∧ decodeLoop [OscType.Int 102] = .ok ([], false) :=
  ⟨C8_empty_block_valid.1 100 101 [OscType.Int 3] (by decide) (by decide),
   C8_empty_block_valid.2 102 (by decide)⟩

theorem since_contract (m : Option Int) (now : Int) :
    ((m.bind fun t => if t > now then none else some (now - t)) = none ↔
       m = none ∨ ∃ t, m = some t ∧ now < t)
    ∧ (∀ t, m = some t → t ≤ now →
        (m.bind fun t => if t > now then none else some (now - t)) = some (now - t))
    ∧ (∀ d, (m.bind fun t => if t > now then none else some (now - t)) = some d → 0 ≤ d) := by
  cases m with
  | none => simp
  | some t =>
      refine ⟨?_, ?_, ?_⟩
      · by_cases hlt : now < t
        · exact iff_of_true (by simp [hlt]) (Or.inr ⟨t, rfl, hlt⟩)
        · simp [hlt]
      · intro t' ht' hle
        cases ht'
        simp [not_lt.mpr hle]
      · intro d hd
        by_cases hlt : now < t
        · simp [hlt] at hd
        · simp [hlt] at hd
          omega

/-- C5: the freshness queries return `none` exactly when no entry
exists or the stored timestamp is strictly after the query time, and
otherwise return the stored timestamp subtracted from the query time,
which is never negative; the same contract holds for
`secs_since_note_on` over note-ons and `secs_since_measure` over
playhead bangs. -/
theorem C5_freshness_queries :
    (∀ (s : State) (now : Int) (inst : Instrument),
       (s.secs_since_note_on now inst = none ↔
         s.note_ons inst = none ∨ ∃ t, s.note_ons inst = some t ∧ now < t)
       ∧ (∀ t, s.note_ons inst = some t → t ≤ now →
           s.secs_since_note_on now inst = some (now - t))
       ∧ (∀ d, s.secs_since_note_on now inst = some d → 0 ≤ d))
    ∧ (∀ (s : State) (now : Int) (meas : Measure),
       (s.secs_since_measure now meas = none ↔
         s.playhead_bangs meas = none ∨ ∃ t, s.playhead_bangs meas = some t ∧ now < t)
       ∧ (∀ t, s.playhead_bangs meas = some t → t ≤ now →
           s.secs_since_measure now meas = some (now - t))
       ∧ (∀ d, s.secs_since_measure now meas = some d → 0 ≤ d)) :=
  ⟨fun s now inst => since_contract (s.note_ons inst) now,
   fun s now meas => since_contract (s.playhead_bangs meas) now⟩

/-- C5 witness: on a state holding a note-on for Kick at time 5 and a
bang for Bar at time 6, the queries at time 9 return the elapsed
durations 4 and 3. -/
theorem C5_freshness_queries_witness :
    (State.new.update_by_events 5 [Event.NoteOn .Kick]).secs_since_note_on 9 .Kick =
      some (9 - 5)
    ∧ (State.new.update_by_events 6 [Event.PlayheadBang .Bar]).secs_since_measure 9 .Bar =
      some (9 - 6) :=
  ⟨(C5_freshness_queries.1 (State.new.update_by_events 5 [Event.NoteOn .Kick]) 9 .Kick).2.1
      5 (by rfl) (by norm_num),
   (C5_freshness_queries.2 (State.new.update_by_events 6 [Event.PlayheadBang .Bar]) 9 .Bar).2.1
      6 (by rfl) (by norm_num)⟩

theorem note_on_mem_update :
    ∀ (es : List Event) (s : State) (now : Int) (inst : Instrument),
      Event.NoteOn inst ∈ es →
      (State.update_by_events s now es).note_ons inst = some now := by
  intro es
  induction es with
  | nil => intro s now inst h; cases h
  | cons e es ih =>
      intro s now inst h
      rw [update_by_events_cons]
      rcases List.mem_cons.mp h with he | hm
      · cases note_ons_after_update es (applyEvent s now e) now inst with
        | inl h1 => rw [h1, ← he]; simp [applyEvent]
        | inr h2 => exact h2
      · exact ih _ now inst hm

theorem bang_mem_update :
    ∀ (es : List Event) (s : State) (now : Int) (meas : Measure),
      Event.PlayheadBang meas ∈ es →
      (State.update_by_events s now es).playhead_bangs meas = some now := by
  intro es
  induction es with
  | nil => intro s now meas h; cases h
  | cons e es ih =>
      intro s now meas h
      rw [update_by_events_cons]
      rcases List.mem_cons.mp h with he | hm
      · cases bangs_after_update es (applyEvent s now e) now meas with
        | inl h1 => rw [h1, ← he]; simp [applyEvent]
        | inr h2 => exact h2
      · exact ih _ now meas hm

theorem positions_congr :
    ∀ (es : List Event) (s₁ s₂ : State) (now₁ now₂ : Int),
      s₁.playhead_positions = s₂.playhead_positions →
      (State.update_by_events s₁ now₁ es).playhead_positions =
        (State.update_by_events s₂ now₂ es).playhead_positions := by
  intro es
  induction es with
  | nil => intro s₁ s₂ n₁ n₂ h; exact h
  | cons e es ih =>
      intro s₁ s₂ n₁ n₂ h
      rw [update_by_events_cons, update_by_events_cons]
      apply ih
      cases e with
      | NoteOn i => simpa [applyEvent] using h
      | PlayheadBang m => simpa [applyEvent] using h
      | PlayheadPosition m v => simp [applyEvent, h]

/-- C6: within one `update_by_events` batch every `NoteOn` and every
`PlayheadBang` event overwrites its mapping entry with the single
shared capture timestamp `now` (whatever the batch size), while a
`PlayheadPosition` event stores only its carried value, and the
resulting position mapping does not depend on the capture timestamp at
all. -/
theorem C6_batch_shares_one_timestamp :
    ∀ (s : State) (now : Int) (events : List Event),
      (∀ inst, Event.NoteOn inst ∈ events →
        (s.update_by_events now events).note_ons inst = some now)
      ∧ (∀ meas, Event.PlayheadBang meas ∈ events →
        (s.update_by_events now events).playhead_bangs meas = some now)
      ∧ (∀ (meas : Measure) (v : Rat),
        (s.update_by_events now [Event.PlayheadPosition meas v]).playhead_positions meas =
          some v)
      ∧ (∀ now₂ : Int, (s.update_by_events now events).playhead_positions =
          (s.update_by_events now₂ events).playhead_positions) := by
  intro s now events
  refine ⟨?_, ?_, ?_, ?_⟩
  · intro inst h; exact note_on_mem_update events s now inst h
  · intro meas h; exact bang_mem_update events s now meas h
  · intro meas v; simp [State.update_by_events, applyEvent]
  · intro now₂; exact positions_congr events s s now now₂ rfl

/-- C6 witness: applying a two-event batch at time 3 stamps both the
Snare note-on and the Bar bang with 3, and a position event stores its
value. -/
theorem C6_batch_shares_one_timestamp_witness :
    (State.new.update_by_events 3 [Event.NoteOn .Snare, Event.PlayheadBang .Bar]).note_ons
        .Snare = some 3
    ∧ (State.new.update_by_events 3 [Event.NoteOn .Snare, Event.PlayheadBang .Bar]).playhead_bangs
        .Bar = some 3 :=
  ⟨(C6_batch_shares_one_timestamp State.new 3
      [Event.NoteOn .Snare, Event.PlayheadBang .Bar]).1 .Snare (by decide),
   (C6_batch_shares_one_timestamp State.new 3
      [Event.NoteOn .Snare, Event.PlayheadBang .Bar]).2.1 .Bar (by decide)⟩

/-- C9: if every timestamp already stored is no later than the batch
capture time `now` (which holds whenever batches are applied in
arrival order), then applying a batch never decreases the stored
timestamp of any key, keys are never erased, and after the batch every
stored timestamp is still no later than `now`, so the invariant
carries to the next batch.  The final conjunct shows the batch is
exactly the sequence of its single-event applies, each performing one
write. -/
theorem C9_timestamps_never_regress :
    ∀ (s : State) (now : Int) (events : List Event),
      ((∀ (i : Instrument) (t : Int), s.note_ons i = some t → t ≤ now) →
        (∀ (inst : Instrument) (t : Int), s.note_ons inst = some t →
          ∃ t', (s.update_by_events now events).note_ons inst = some t' ∧ t ≤ t')
        ∧ (∀ (inst : Instrument) (t' : Int),
            (s.update_by_events now events).note_ons inst = some t' → t' ≤ now))
      ∧ ((∀ (m : Measure) (t : Int), s.playhead_bangs m = some t → t ≤ now) →
        (∀ (meas : Measure) (t : Int), s.playhead_bangs meas = some t →
          ∃ t', (s.update_by_events now events).playhead_bangs meas = some t' ∧ t ≤ t')
        ∧ (∀ (meas : Measure) (t' : Int),
            (s.update_by_events now events).playhead_bangs meas = some t' → t' ≤ now))
      ∧ State.update_by_events s now events =
          events.foldl (fun st e => st.update_by_events now [e]) s := by
  intro s now events
  refine ⟨?_, ?_, rfl⟩
  · intro hinv
    constructor
    · intro inst t ht
      cases note_ons_after_update events s now inst with
      | inl h1 => exact ⟨t, by rw [h1, ht], le_rfl⟩
      | inr h2 => exact ⟨now, h2, hinv inst t ht⟩
    · intro inst t' ht'
      cases note_ons_after_update events s now inst with
      | inl h1 => rw [h1] at ht'; exact hinv inst t' ht'
      | inr h2 => rw [h2] at ht'; cases ht'; exact le_rfl
  · intro hinv
    constructor
    · intro meas t ht
      cases bangs_after_update events s now meas with
      | inl h1 => exact ⟨t, by rw [h1, ht], le_rfl⟩
      | inr h2 => exact ⟨now, h2, hinv meas t ht⟩
    · intro meas t' ht'
      cases bangs_after_update events s now meas with
      | inl h1 => rw [h1] at ht'; exact hinv meas t' ht'
      | inr h2 => rw [h2] at ht'; cases ht'; exact le_rfl

/-- C9 witness: a Kick note-on stored at time 2 is re-stamped to 5 ≥ 2
by a later batch at time 5. -/
theorem C9_timestamps_never_regress_witness :
    ∃ t', ((State.new.update_by_events 2 [Event.NoteOn .Kick]).update_by_events 5
      [Event.NoteOn .Kick]).note_ons .Kick = some t' ∧ 2 ≤ t' :=
  ((C9_timestamps_never_regress (State.new.update_by_events 2 [Event.NoteOn .Kick]) 5
      [Event.NoteOn .Kick]).1
    (by
      intro i t ht
      cases i <;> simp [State.update_by_events, applyEvent, State.new] at ht <;> omega)).1
    .Kick 2 (by rfl)

/-- C10: each single applied event modifies exactly the one mapping
entry it addresses — its key gets the new timestamp or value, every
other key of the same mapping and both other mappings are untouched —
and no operation ever removes an entry from any of the three
mappings. -/
theorem C10_frame_and_no_removal :
    ∀ (s : State) (now : Int),
      (∀ inst : Instrument,
        (s.update_by_events now [Event.NoteOn inst]).note_ons inst = some now
        ∧ (∀ inst', inst' ≠ inst →
            (s.update_by_events now [Event.NoteOn inst]).note_ons inst' = s.note_ons inst')
        ∧ (s.update_by_events now [Event.NoteOn inst]).playhead_bangs = s.playhead_bangs
        ∧ (s.update_by_events now [Event.NoteOn inst]).playhead_positions =
            s.playhead_positions)
      ∧ (∀ meas : Measure,
        (s.update_by_events now [Event.PlayheadBang meas]).playhead_bangs meas = some now
        ∧ (∀ meas', meas' ≠ meas →
            (s.update_by_events now [Event.PlayheadBang meas]).playhead_bangs meas' =
              s.playhead_bangs meas')
        ∧ (s.update_by_events now [Event.PlayheadBang meas]).note_ons = s.note_ons
        ∧ (s.update_by_events now [Event.PlayheadBang meas]).playhead_positions =
            s.playhead_positions)
      ∧ (∀ (meas : Measure) (v : Rat),
        (s.update_by_events now [Event.PlayheadPosition meas v]).playhead_positions meas =
          some v
        ∧ (∀ meas', meas' ≠ meas →
            (s.update_by_events now [Event.PlayheadPosition meas v]).playhead_positions meas' =
              s.playhead_positions meas')
        ∧ (s.update_by_events now [Event.PlayheadPosition meas v]).note_ons = s.note_ons
        ∧ (s.update_by_events now [Event.PlayheadPosition meas v]).playhead_bangs =
            s.playhead_bangs)
      ∧ (∀ (events : List Event) (inst : Instrument),
          (s.note_ons inst).isSome = true →
          ((s.update_by_events now events).note_ons inst).isSome = true)
      ∧ (∀ (events : List Event) (meas : Measure),
          (s.playhead_bangs meas).isSome = true →
          ((s.update_by_events now events).playhead_bangs meas).isSome = true)
      ∧ (∀ (events : List Event) (meas : Measure),
          (s.playhead_positions meas).isSome = true →
          ((s.update_by_events now events).playhead_positions meas).isSome = true) := by
  intro s now
  refine ⟨?_, ?_, ?_, ?_, ?_, ?_⟩
  · intro inst
    refine ⟨by simp [State.update_by_events, applyEvent], ?_, rfl, rfl⟩
    intro inst' h
    simp [State.update_by_events, applyEvent, h]
  · intro meas
    refine ⟨by simp [State.update_by_events, applyEvent], ?_, rfl, rfl⟩
    intro meas' h
    simp [State.update_by_events, applyEvent, h]
  · intro meas v
    refine ⟨by simp [State.update_by_events, applyEvent], ?_, rfl, rfl⟩
    intro meas' h
    simp [State.update_by_events, applyEvent, h]
  · intro events inst h
    cases note_ons_after_update events s now inst with
    | inl h1 => rw [h1]; exact h
    | inr h2 => rw [h2]; rfl
  · intro events meas h
    cases bangs_after_update events s now meas with
    | inl h1 => rw [h1]; exact h
    | inr h2 => rw [h2]; rfl
  · intro events meas h
    cases positions_after_update events s now meas with
    | inl h1 => rw [h1]; exact h
    | inr h2 => obtain ⟨v, hv, _⟩ := h2; rw [hv]; rfl

/-- C10 witness: a Snare note-on leaves the Kick entry untouched, and
an unrelated later batch does not remove the stored Snare entry. -/
theorem C10_frame_and_no_removal_witness :
    (State.new.update_by_events 4 [Event.NoteOn .Snare]).note_ons .Kick =
      State.new.note_ons .Kick
    ∧ (((State.new.update_by_events 4 [Event.NoteOn .Snare]).update_by_events 9
        [Event.PlayheadBang .Bar]).note_ons .Snare).isSome = true :=
  ⟨((C10_frame_and_no_removal State.new 4).1 .Snare).2.1 .Kick (by decide),
   (C10_frame_and_no_removal (State.new.update_by_events 4 [Event.NoteOn .Snare]) 9).2.2.2.1
     [Event.PlayheadBang .Bar] .Snare (by rfl)⟩

end JenRx
